import Mathlib

/-!
Verification of the Redis-backed Next.js cache handler
(`src/app/lib/cache-handler.cjs`).

The handler is embedded shallowly:

* the Redis keyspace is an association list `Store` mapping key strings to
  values, where a value is either a well-formed serialized entry record
  (`RVal.record`), an arbitrary plain string (`RVal.str`, covering the
  `<tag>:timestamp` records and malformed payloads), or a Redis set
  (`RVal.sset`);
* pipelined Redis commands are reified as a `Cmd` list built exactly as the
  source builds its pipelines, and applied sequentially by `applyPipeline`;
  `EXPIRE`/TTL side effects are not modelled in the untimed store (the
  commands still appear in the pipelines, with their TTL arguments);
* `Date.now()` is an explicit `now : Nat` argument (milliseconds);
* fallible internals (store I/O, `JSON.parse`) are `Except Unit` values and
  each public operation catches at its boundary exactly where the source
  has its `try`/`catch`;
* `Buffer`/base64 serialization is modelled byte-exactly (`b64EncodeBytes`
  / `b64DecodeChars`); the JSON document layer is represented by the
  structured record `StoredRecord` (its fixed keys and base64-alphabet
  string values round-trip through `JSON.stringify`/`JSON.parse`
  unchanged).
-/

/-- Base64 alphabet, in index order, as used by `Buffer.toString("base64")`. -/
def b64Alphabet : List Char :=
  "ABCDEFGHIJKLMNOPQRSTUVWXYZabcdefghijklmnopqrstuvwxyz0123456789+/".data

/-- Character for a sextet value (0..63). -/
def sextetChar (n : Nat) : Char := b64Alphabet.getD n 'A'

/-- Sextet value of a base64 character. -/
def sextetVal (c : Char) : Nat := b64Alphabet.indexOf c

/-- Standard base64 encoding of a byte list (bytes as `Nat < 256`),
with `=` padding, as produced by `buffer.toString("base64")`. -/
def b64EncodeBytes : List Nat → List Char
  | [] => []
  | [a] => [sextetChar (a / 4), sextetChar (a % 4 * 16), '=', '=']
  | [a, b] =>
      [sextetChar (a / 4), sextetChar (a % 4 * 16 + b / 16),
       sextetChar (b % 16 * 4), '=']
  | a :: b :: c :: rest =>
      sextetChar (a / 4) :: sextetChar (a % 4 * 16 + b / 16) ::
      sextetChar (b % 16 * 4 + c / 64) :: sextetChar (c % 64) ::
      b64EncodeBytes rest

/-- Standard base64 decoding, as performed by `Buffer.from(s, "base64")`
on well-formed padded input. -/
def b64DecodeChars : List Char → List Nat
  | c1 :: c2 :: c3 :: c4 :: rest =>
      if c3 = '=' then [sextetVal c1 * 4 + sextetVal c2 / 16]
      else if c4 = '=' then
        [sextetVal c1 * 4 + sextetVal c2 / 16,
         sextetVal c2 % 16 * 16 + sextetVal c3 / 4]
      else
        (sextetVal c1 * 4 + sextetVal c2 / 16) ::
        (sextetVal c2 % 16 * 16 + sextetVal c3 / 4) ::
        (sextetVal c3 % 4 * 64 + sextetVal c4) :: b64DecodeChars rest
  | _ => []

namespace CacheHandler

/-- Key namespace for entry records: `CACHE_PREFIX` in the source. -/
def CACHE_NS : String := "nextjs:cache:"

/-- Key namespace for tag records: `TAGS_PREFIX` in the source. -/
def TAGS_NS : String := "nextjs:tags:"

/-- The JSON document written by `set` (`JSON.stringify({...})`) and read
back by `get` (`JSON.parse(stored)`): fixed keys, `value` is the base64
payload string. -/
structure StoredRecord where
  value : String
  tags : List String
  stale : Bool
  timestamp : Nat
  expire : Nat
  revalidate : Nat
deriving DecidableEq, Repr

/-- A value held under one Redis key: a well-formed serialized entry
record, an arbitrary plain string (timestamp records, malformed
payloads), or a Redis set. -/
inductive RVal where
  | record (r : StoredRecord)
  | str (s : String)
  | sset (members : List String)
deriving DecidableEq, Repr

/-- The Redis keyspace, as an association list (first match wins). -/
abbrev Store := List (String × RVal)

/-- Lookup a key in the store (Redis `GET`/type inspection). -/
def slookup : Store → String → Option RVal
  | [], _ => none
  | (k, v) :: rest, key => if key = k then some v else slookup rest key

/-- Remove a key from the store (Redis `DEL`). -/
def sdel : Store → String → Store
  | [], _ => []
  | (k, v) :: rest, key =>
      if key = k then sdel rest key else (k, v) :: sdel rest key

/-- Set a key in the store. -/
def supdate (S : Store) (k : String) (v : RVal) : Store := (k, v) :: sdel S k

/-- Redis `SMEMBERS`: empty for an absent key, error (`WRONGTYPE`) when the
key holds a non-set value. -/
def smembers (S : Store) (k : String) : Except Unit (List String) :=
  match slookup S k with
  | none => Except.ok []
  | some (RVal.sset ms) => Except.ok ms
  | some _ => Except.error ()

/-- Redis `GET`: errors (`WRONGTYPE`) when the key holds a set. -/
def rget (S : Store) (k : String) : Except Unit (Option RVal) :=
  match slookup S k with
  | some (RVal.sset _) => Except.error ()
  | v => Except.ok v

/-- One pipelined Redis command, as enqueued by the source's
`writeClient.pipeline()` blocks. TTL arguments are carried verbatim. -/
inductive Cmd where
  | setex (key : String) (ttlSeconds : Nat) (v : RVal)
  | sadd (key : String) (member : String)
  | expire (key : String) (ttlSeconds : Nat)
  | del (key : String)
  | setStr (key : String) (s : String)
deriving DecidableEq, Repr

/-- Effect of one command on the (untimed) store. `expire` only adjusts a
TTL, so it is a no-op here; `sadd` on a non-set key is a per-command
`WRONGTYPE` error whose result the source never inspects, hence no-op. -/
def applyCmd (S : Store) : Cmd → Store
  | Cmd.setex k _ v => supdate S k v
  | Cmd.sadd k m =>
      match slookup S k with
      | some (RVal.sset ms) =>
          supdate S k (RVal.sset (if m ∈ ms then ms else ms ++ [m]))
      | some _ => S
      | none => supdate S k (RVal.sset [m])
  | Cmd.expire _ _ => S
  | Cmd.del k => sdel S k
  | Cmd.setStr k s => supdate S k (RVal.str s)

/-- `pipeline.exec()`: the queued commands applied in order. -/
def applyPipeline (S : Store) (cmds : List Cmd) : Store :=
  cmds.foldl applyCmd S

/-- The in-process `tagTimestamps` map (tag → last invalidation ms),
with `Map.set` modelled as a shadowing prepend. -/
abbrev TagMap := List (String × Nat)

/-- `tagTimestamps.get`. -/
def tmGet : TagMap → String → Option Nat
  | [], _ => none
  | (k, v) :: rest, key => if key = k then some v else tmGet rest key

/-- `tagTimestamps.set`. -/
def tmSet (tm : TagMap) (k : String) (v : Nat) : TagMap := (k, v) :: tm

/-- The `pendingSets` write-coalescer registry, by key membership. -/
abbrev PendingMap := String → Bool

/-- `pendingSets.set` / `pendingSets.delete` (membership view). -/
def psSet (ps : PendingMap) (k : String) (v : Bool) : PendingMap :=
  fun s => if s = k then v else ps s

/-- The entry object awaited from `pendingEntry` in `set`: the
`ReadableStream` is modelled as its drained chunk list (each chunk a byte
list), per the source's read-loop that collects chunks before
`Buffer.concat`. -/
structure EntryIn where
  chunks : List (List Nat)
  tags : List String
  stale : Bool
  timestamp : Nat
  expire : Nat
  revalidate : Nat
deriving DecidableEq, Repr

/-- The serialized record `set` builds: `Buffer.concat(chunks)` then
`toString("base64")` into the `value` field, other fields copied. -/
def serializeRecord (e : EntryIn) : StoredRecord :=
  { value := String.mk (b64EncodeBytes e.chunks.flatten)
    tags := e.tags
    stale := e.stale
    timestamp := e.timestamp
    expire := e.expire
    revalidate := e.revalidate }

/-- The pipeline built by `set` (lines 208-216 of the source): one
`SETEX key expire serialized`, then per tag `SADD tagKey key` and
`EXPIRE tagKey (expire + 60)`. -/
def buildSetPipeline (cacheKey : String) (e : EntryIn) : List Cmd :=
  Cmd.setex (CACHE_NS ++ cacheKey) e.expire (RVal.record (serializeRecord e)) ::
    e.tags.flatMap (fun tag =>
      [Cmd.sadd (TAGS_NS ++ tag) (CACHE_NS ++ cacheKey),
       Cmd.expire (TAGS_NS ++ tag) (e.expire + 60)])

/-- What `get` hands back to the caller on a hit: the reconstructed
stream's bytes (`Buffer.from(data.value, "base64")`) plus the stored
metadata. -/
structure CacheHit where
  value : List Nat
  tags : List String
  stale : Bool
  timestamp : Nat
  expire : Nat
  revalidate : Nat
deriving DecidableEq, Repr

/-- `JSON.parse` of a stored value: a well-formed record parses to itself;
any other string is a deserialization failure (in the source every such
shape also ends in a thrown error — `JSON.parse` failing, or
`Buffer.from(undefined)` — caught at the boundary). -/
def parseStored : RVal → Except Unit StoredRecord
  | RVal.record r => Except.ok r
  | _ => Except.error ()

/-- Body of `get` inside its `try` (lines 94-142): store read, falsy
check, parse, expiry check against `revalidate`, stream reconstruction.
`readRes` is the result of `readClient.get(key)`, `Except.error`
covering store I/O failure. -/
def getBody (readRes : Except Unit (Option RVal)) (now : Nat) :
    Except Unit (Option CacheHit) :=
  match readRes with
  | Except.error e => Except.error e
  | Except.ok none => Except.ok none
  | Except.ok (some v) =>
      match parseStored v with
      | Except.error e => Except.error e
      | Except.ok data =>
          if now > data.timestamp + data.revalidate * 1000 then
            Except.ok none
          else
            Except.ok (some
              { value := b64DecodeChars data.value.data
                tags := data.tags
                stale := data.stale
                timestamp := data.timestamp
                expire := data.expire
                revalidate := data.revalidate })

/-- Public `get` over an explicit read result: the `catch` returns
`undefined` on any failure. -/
def getPublic (readRes : Except Unit (Option RVal)) (now : Nat) :
    Option CacheHit :=
  match getBody readRes now with
  | Except.ok r => r
  | Except.error _ => none

/-- Public `get(cacheKey, softTags)` against a store. `softTags` is
accepted but, as in the source, only reported to the span/log. -/
def get (S : Store) (now : Nat) (cacheKey : String)
    (_softTags : List String) : Option CacheHit :=
  getPublic (rget S (CACHE_NS ++ cacheKey)) now

/-- Result of one `set` call: the store after the call, the coalescer
registry after the `finally`, and whether the promise this call
registered was resolved. -/
structure SetResult where
  store : Store
  pending : PendingMap
  promiseResolved : Bool

/-- `set(cacheKey, pendingEntry)` (lines 155-227): register the pending
promise synchronously, then in the `try` await the entry
(`entryResult.error` = rejected producer or stream-read failure), build
and execute the pipeline (`execFails` = `pipeline.exec()` throwing; a
failed exec applies nothing). The `finally` resolves the promise and
deletes the registry slot on every path. -/
def setRun (S : Store) (ps : PendingMap) (cacheKey : String)
    (entryResult : Except Unit EntryIn) (execFails : Bool) : SetResult :=
  let ps1 := psSet ps cacheKey true
  let bodyResult : Except Unit Store :=
    match entryResult with
    | Except.error e => Except.error e
    | Except.ok entry =>
        if execFails then Except.error ()
        else Except.ok (applyPipeline S (buildSetPipeline cacheKey entry))
  { store := match bodyResult with
      | Except.ok S2 => S2
      | Except.error _ => S
    pending := psSet ps1 cacheKey false
    promiseResolved := true }

/-- `getExpiration(tags)` (lines 258-277): 0 for an empty tag list, else
the running maximum of `tagTimestamps.get(tag) ?? 0`. -/
def getExpiration (tm : TagMap) (tags : List String) : Nat :=
  if tags.length = 0 then 0
  else
    tags.foldl
      (fun maxTimestamp tag =>
        if (tmGet tm tag).getD 0 > maxTimestamp then (tmGet tm tag).getD 0
        else maxTimestamp)
      0

/-- Loop body of `updateTags` (lines 301-317): per tag, `SMEMBERS` (which
may throw: `failAt = some 0` injects an I/O failure, a non-set value is
`WRONGTYPE`), then queue `DEL` of every member, `DEL` of the tag set,
`SET` of the timestamp record, and update `tagTimestamps` in process.
Returns the queued commands (or the error that escaped the loop) together
with the `tagTimestamps` map as mutated so far. -/
def updateTagsGo (S : Store) (now : Nat) :
    List String → Option Nat → List Cmd → TagMap →
    Except Unit (List Cmd) × TagMap
  | [], _, acc, tm => (Except.ok acc, tm)
  | tag :: rest, failAt, acc, tm =>
      if failAt = some 0 then (Except.error (), tm)
      else
        match smembers S (TAGS_NS ++ tag) with
        | Except.error _ => (Except.error (), tm)
        | Except.ok members =>
            updateTagsGo S now rest (failAt.map (fun n => n - 1))
              (acc ++ members.map Cmd.del ++
                [Cmd.del (TAGS_NS ++ tag),
                 Cmd.setStr (TAGS_NS ++ tag ++ ":timestamp") (toString now)])
              (tmSet tm tag now)

/-- `updateTags(tags, durations)` (lines 285-327). `durations` only feeds
span attributes in the source and is ignored here. A failure anywhere
(injected `failAt`, `WRONGTYPE`, or `execFails` for `pipeline.exec()`)
is caught at the boundary; the store is only modified by a successful
exec (modelled all-or-nothing), while `tagTimestamps` keeps whatever the
loop already wrote. -/
def updateTags (S : Store) (tm : TagMap) (now : Nat) (tags : List String)
    (failAt : Option Nat) (execFails : Bool) : Store × TagMap :=
  match updateTagsGo S now tags failAt [] tm with
  | (Except.error _, tm2) => (S, tm2)
  | (Except.ok cmds, tm2) =>
      if execFails then (S, tm2) else (applyPipeline S cmds, tm2)

/-- Character-list test for a leading pattern (used to model JS string
matching without relying on library string functions). -/
def startsWithChars : List Char → List Char → Bool
  | [], _ => true
  | _ :: _, [] => false
  | p :: ps, c :: cs => p = c && startsWithChars ps cs

/-- JS `String.prototype.replace(pattern, repl)` with a string pattern:
replaces only the first occurrence. -/
def listReplaceFirst (pat repl : List Char) : List Char → List Char
  | [] => if startsWithChars pat [] then repl else []
  | c :: rest =>
      if startsWithChars pat (c :: rest) then
        repl ++ (c :: rest).drop pat.length
      else c :: listReplaceFirst pat repl rest

/-- Does a key match the Redis glob `nextjs:tags:*:timestamp` used by
`refreshTags`' `KEYS` scan? -/
def matchesTagTsPattern (k : String) : Bool :=
  startsWithChars TAGS_NS.data k.data &&
    startsWithChars ":timestamp".data.reverse (k.data.drop TAGS_NS.data.length).reverse

/-- Tag extraction in `refreshTags`:
`tagKey.replace(TAGS_PREFIX, "").replace(":timestamp", "")` (both JS
first-occurrence replacements). -/
def extractTag (tagKey : String) : String :=
  String.mk (listReplaceFirst ":timestamp".data []
    (listReplaceFirst TAGS_NS.data [] tagKey.data))

/-- Decimal digit-string parser (`Number.parseInt(s, 10)` on the pure
digit strings the handler itself writes; see `refreshTagsGo` for how
non-numeric strings are treated). -/
def digitsToNat : List Char → Nat → Option Nat
  | [], acc => some acc
  | c :: rest, acc =>
      if c.isDigit then digitsToNat rest (acc * 10 + (c.toNat - 48)) else none

/-- Parse a stored timestamp string. -/
def parseDecimal (s : String) : Option Nat :=
  match s.data with
  | [] => none
  | l => digitsToNat l 0

/-- Loop of `refreshTags` (lines 240-246) over the keys returned by the
scan: `GET` each timestamp key (a set value throws `WRONGTYPE`, aborting
the loop; the surrounding catch keeps updates already made), skip falsy
values, parse and store. `Number.parseInt` of a non-numeric string gives
`NaN` in JS; a `NaN` map entry can never raise `getExpiration`'s running
maximum (every JS comparison with it is false), so it is modelled as a
skip. -/
def refreshTagsGo (S : Store) : List String → TagMap → TagMap
  | [], tm => tm
  | k :: rest, tm =>
      match slookup S k with
      | some (RVal.sset _) => tm
      | some (RVal.str s) =>
          match parseDecimal s with
          | some n => refreshTagsGo S rest (tmSet tm (extractTag k) n)
          | none => refreshTagsGo S rest tm
      | some (RVal.record _) => refreshTagsGo S rest tm
      | none => refreshTagsGo S rest tm

/-- `refreshTags()` (lines 233-251): scan for timestamp keys and
repopulate the in-process map; `ioFails` injects a thrown `KEYS` call,
caught at the boundary with the map untouched. -/
def refreshTags (S : Store) (tm : TagMap) (ioFails : Bool) : TagMap :=
  if ioFails then tm
  else refreshTagsGo S ((S.map Prod.fst).filter matchesTagTsPattern) tm

/-- `ensureConnected()` (lines 75-84) acting on the `connected` flag:
returns the new flag value and whether a connection attempt was made.
Both the success and the catch branch set `connected = true`. -/
def ensureConnected (connected : Bool) (connectFails : Bool) : Bool × Bool :=
  if connected then (connected, false)
  else
    match connectFails with
    | true => (true, true)
    | false => (true, true)

/-- A process lifetime of `ensureConnected` calls (one flag per call
saying whether the store connection attempt would fail), counting the
connection attempts made. -/
def runEnsures (fails : List Bool) : Bool × Nat :=
  fails.foldl
    (fun st f =>
      let r := ensureConnected st.1 f
      (r.1, st.2 + (if r.2 then 1 else 0)))
    (false, 0)

/-- Is a command the set-with-expiry of an entry record? (for counting
`SETEX` commands in a pipeline). -/
def isSetexCmd : Cmd → Bool
  | Cmd.setex _ _ _ => true
  | _ => false

/-- Does a command (re)bind this key's value when applied? `DEL` and
`EXPIRE` never do. -/
def cmdWritesKey (c : Cmd) (k : String) : Bool :=
  match c with
  | Cmd.setex k2 _ _ => k2 = k
  | Cmd.sadd k2 _ => k2 = k
  | Cmd.setStr k2 _ => k2 = k
  | _ => false

/-- Does applying a command touch this key's binding at all? (`DEL`
included; `EXPIRE` never does in the untimed store). -/
def cmdTouchesKey (c : Cmd) (k : String) : Bool :=
  match c with
  | Cmd.setex k2 _ _ => k2 = k
  | Cmd.sadd k2 _ => k2 = k
  | Cmd.setStr k2 _ => k2 = k
  | Cmd.del k2 => k2 = k
  | Cmd.expire _ _ => false

/-- One `updateTags` invocation in a trace: its `Date.now()` reading, its
tag list, and its injected failures. -/
structure UpdateCall where
  now : Nat
  tags : List String
  failAt : Option Nat
  execFails : Bool

/-- Run a sequence of `updateTags` invocations. -/
def runUpdateCalls : List UpdateCall → Store × TagMap → Store × TagMap
  | [], st => st
  | u :: rest, st =>
      runUpdateCalls rest (updateTags st.1 st.2 u.now u.tags u.failAt u.execFails)

/-- The calls' clock readings are non-decreasing and start no earlier
than a given time (monotone `Date.now()`). -/
def clocksMono : Nat → List UpdateCall → Bool
  | _, [] => true
  | c, u :: rest => decide (c ≤ u.now) && clocksMono u.now rest

/-- Every timestamp recorded in the map is at most `c` (the map never
holds a reading from the future). -/
def tmBounded (tm : TagMap) (c : Nat) : Bool :=
  tm.all (fun p => decide (p.2 ≤ c))

/-- Joint state of one in-flight `set(key, …)` and one `get(key, …)` on
the same key, for the write-coalescer analysis. `wp` is the writer's
position: 0 before the call, 1 after the synchronous
`pendingSets.set(cacheKey, promise)`, 2 after `pipeline.exec()` settles,
3 after the `finally` (promise resolved, slot deleted). `rp` is the
reader's position: 0 before its `pendingSets.get` check, 1 after it
(`rWaits` records whether it found a pending promise), 2 after its
`readClient.get` (`rObs` is the store contents it fetched). -/
structure CState where
  store : Store
  pending : Bool
  resolved : Bool
  wp : Nat
  rp : Nat
  rWaits : Bool
  rObs : Option Store

/-- State before either call starts. -/
def initCState (S0 : Store) : CState :=
  { store := S0, pending := false, resolved := false, wp := 0, rp := 0,
    rWaits := false, rObs := none }

/-- The store contents once the write settles: the whole pipeline on
success, nothing on failure. -/
def writeResult (S0 : Store) (cmds : List Cmd) (writeOk : Bool) : Store :=
  if writeOk then applyPipeline S0 cmds else S0

/-- Interleaving semantics: each constructor is one atomic step at an
await point of the source. The reader may pass from `rp = 1` to its
store fetch only if it was not waiting, or the promise it awaits has
been resolved (`await pendingPromise`). The pipeline `exec` is one
atomic step (a pipelined batch applies without interleaving). -/
inductive CStep (cmds : List Cmd) (writeOk : Bool) : CState → CState → Prop where
  | wStart (s : CState) (h : s.wp = 0) :
      CStep cmds writeOk s { s with wp := 1, pending := true, resolved := false }
  | wExec (s : CState) (h : s.wp = 1) :
      CStep cmds writeOk s
        { s with wp := 2,
                 store := if writeOk then applyPipeline s.store cmds else s.store }
  | wCleanup (s : CState) (h : s.wp = 2) :
      CStep cmds writeOk s { s with wp := 3, resolved := true, pending := false }
  | rCheck (s : CState) (h : s.rp = 0) :
      CStep cmds writeOk s { s with rp := 1, rWaits := s.pending }
  | rFetch (s : CState) (h : s.rp = 1) (hw : s.rWaits = true → s.resolved = true) :
      CStep cmds writeOk s { s with rp := 2, rObs := some s.store }

/-- States reachable by interleaving the two calls from the initial
state. -/
inductive CReach (S0 : Store) (cmds : List Cmd) (writeOk : Bool) : CState → Prop where
  | init : CReach S0 cmds writeOk (initCState S0)
  | step {s s2 : CState} : CReach S0 cmds writeOk s → CStep cmds writeOk s s2 →
      CReach S0 cmds writeOk s2

/-- Inductive invariant of the coalescer system. -/
def CInv (S0 : Store) (cmds : List Cmd) (writeOk : Bool) (s : CState) : Prop :=
  (s.wp = 0 ∨ s.wp = 1 ∨ s.wp = 2 ∨ s.wp = 3) ∧
  ((s.wp = 0 ∨ s.wp = 1) → s.store = S0) ∧
  ((s.wp = 2 ∨ s.wp = 3) → s.store = writeResult S0 cmds writeOk) ∧
  (s.pending = true ↔ (s.wp = 1 ∨ s.wp = 2)) ∧
  (s.resolved = true ↔ s.wp = 3) ∧
  (s.rp = 2 → s.rWaits = true → s.rObs = some (writeResult S0 cmds writeOk))

theorem sextetVal_sextetChar : ∀ n : Nat, n < 64 → sextetVal (sextetChar n) = n := by
  decide

theorem sextetChar_ne_pad : ∀ n : Nat, n < 64 → sextetChar n ≠ '=' := by
  decide

/-- Decoding inverts encoding on every byte list. -/
theorem b64_decode_encode (l : List Nat) (h : ∀ b ∈ l, b < 256) :
    b64DecodeChars (b64EncodeBytes l) = l := by
  induction l using b64EncodeBytes.induct with
  | case1 => rfl
  | case2 a =>
      have ha : a < 256 := h a (by simp)
      have h1 : a / 4 < 64 := by omega
      have h2 : a % 4 * 16 < 64 := by omega
      simp only [b64EncodeBytes, b64DecodeChars, if_pos rfl, if_true,
        sextetVal_sextetChar _ h1, sextetVal_sextetChar _ h2,
        List.cons.injEq, and_true]
      omega
  | case3 a b =>
      have ha : a < 256 := h a (by simp)
      have hb : b < 256 := h b (by simp)
      have h1 : a / 4 < 64 := by omega
      have h2 : a % 4 * 16 + b / 16 < 64 := by omega
      have h3 : b % 16 * 4 < 64 := by omega
      simp only [b64EncodeBytes, b64DecodeChars,
        if_neg (sextetChar_ne_pad _ h3), if_pos rfl, if_true,
        sextetVal_sextetChar _ h1, sextetVal_sextetChar _ h2,
        sextetVal_sextetChar _ h3, List.cons.injEq, and_true]
      constructor <;> omega
  | case4 a b c rest ih =>
      have ha : a < 256 := h a (by simp)
      have hb : b < 256 := h b (by simp)
      have hc : c < 256 := h c (by simp)
      have h1 : a / 4 < 64 := by omega
      have h2 : a % 4 * 16 + b / 16 < 64 := by omega
      have h3 : b % 16 * 4 + c / 64 < 64 := by omega
      have h4 : c % 64 < 64 := by omega
      have hrest : ∀ x ∈ rest, x < 256 := by
        intro x hx; exact h x (by simp [hx])
      simp only [b64EncodeBytes, b64DecodeChars,
        if_neg (sextetChar_ne_pad _ h3), if_neg (sextetChar_ne_pad _ h4),
        sextetVal_sextetChar _ h1, sextetVal_sextetChar _ h2,
        sextetVal_sextetChar _ h3, sextetVal_sextetChar _ h4,
        ih hrest, List.cons.injEq, and_true]
      refine ⟨?_, ?_, ?_⟩ <;> omega

/-- The entry-record namespace and the tag-record namespace are disjoint:
no entry record key is ever equal to a tag (or tag-timestamp) key. -/
theorem ns_disjoint (x y : String) : CACHE_NS ++ x ≠ TAGS_NS ++ y := by
  intro h
  have h2 : (CACHE_NS ++ x).data = (TAGS_NS ++ y).data := congrArg String.data h
  rw [String.data_append, String.data_append] at h2
  simp [CACHE_NS, TAGS_NS] at h2

theorem slookup_sdel (S : Store) (k2 k : String) :
    slookup (sdel S k2) k = if k = k2 then none else slookup S k := by
  induction S with
  | nil => by_cases h : k = k2 <;> simp [sdel, slookup, h]
  | cons p rest ih =>
      obtain ⟨pk, pv⟩ := p
      by_cases h1 : k2 = pk
      · subst h1
        by_cases h2 : k = k2
        · subst h2; simp [sdel, slookup, ih]
        · simp [sdel, slookup, ih, h2]
      · by_cases h2 : k = pk
        · subst h2
          have hk : ¬ k = k2 := fun he => h1 he.symm
          simp [sdel, slookup, h1, hk]
        · simp [sdel, slookup, h1, h2, ih]

theorem slookup_supdate (S : Store) (k2 k : String) (v : RVal) :
    slookup (supdate S k2 v) k = if k = k2 then some v else slookup S k := by
  by_cases h : k = k2 <;> simp [supdate, slookup, slookup_sdel, h]

theorem slookup_applyCmd_untouched (S : Store) (c : Cmd) (k : String)
    (h : cmdTouchesKey c k = false) :
    slookup (applyCmd S c) k = slookup S k := by
  cases c with
  | setex k2 ttl v =>
      simp only [cmdTouchesKey, decide_eq_false_iff_not] at h
      have hk : ¬ k = k2 := fun he => h he.symm
      simp [applyCmd, slookup_supdate, hk]
  | sadd k2 m =>
      simp only [cmdTouchesKey, decide_eq_false_iff_not] at h
      have hk : ¬ k = k2 := fun he => h he.symm
      cases hs : slookup S k2 with
      | none => simp [applyCmd, hs, slookup_supdate, hk]
      | some v =>
          cases v <;> simp [applyCmd, hs, slookup_supdate, hk]
  | expire k2 ttl => simp [applyCmd]
  | del k2 =>
      simp only [cmdTouchesKey, decide_eq_false_iff_not] at h
      have hk : ¬ k = k2 := fun he => h he.symm
      simp [applyCmd, slookup_sdel, hk]
  | setStr k2 s =>
      simp only [cmdTouchesKey, decide_eq_false_iff_not] at h
      have hk : ¬ k = k2 := fun he => h he.symm
      simp [applyCmd, slookup_supdate, hk]

theorem slookup_applyCmd_none (S : Store) (c : Cmd) (k : String)
    (hn : slookup S k = none) (h : cmdWritesKey c k = false) :
    slookup (applyCmd S c) k = none := by
  cases c with
  | setex k2 ttl v =>
      simp only [cmdWritesKey, decide_eq_false_iff_not] at h
      have hk : ¬ k = k2 := fun he => h he.symm
      simp [applyCmd, slookup_supdate, hk, hn]
  | sadd k2 m =>
      simp only [cmdWritesKey, decide_eq_false_iff_not] at h
      have hk : ¬ k = k2 := fun he => h he.symm
      cases hs : slookup S k2 with
      | none => simp [applyCmd, hs, slookup_supdate, hk, hn]
      | some v =>
          cases v <;> simp [applyCmd, hs, slookup_supdate, hk, hn]
  | expire k2 ttl => simp [applyCmd, hn]
  | del k2 =>
      by_cases hk : k = k2 <;> simp [applyCmd, slookup_sdel, hk, hn]
  | setStr k2 s =>
      simp only [cmdWritesKey, decide_eq_false_iff_not] at h
      have hk : ¬ k = k2 := fun he => h he.symm
      simp [applyCmd, slookup_supdate, hk, hn]

theorem slookup_applyPipeline_untouched (cmds : List Cmd) (S : Store) (k : String)
    (h : ∀ c ∈ cmds, cmdTouchesKey c k = false) :
    slookup (applyPipeline S cmds) k = slookup S k := by
  induction cmds generalizing S with
  | nil => rfl
  | cons c rest ih =>
      have h1 := h c (List.mem_cons_self c rest)
      have h2 : ∀ c2 ∈ rest, cmdTouchesKey c2 k = false :=
        fun c2 hc2 => h c2 (List.mem_cons_of_mem c hc2)
      simp only [applyPipeline, List.foldl_cons]
      rw [show List.foldl applyCmd (applyCmd S c) rest
            = applyPipeline (applyCmd S c) rest from rfl,
        ih (applyCmd S c) h2, slookup_applyCmd_untouched S c k h1]

theorem slookup_applyPipeline_none (cmds : List Cmd) (S : Store) (k : String)
    (hn : slookup S k = none) (h : ∀ c ∈ cmds, cmdWritesKey c k = false) :
    slookup (applyPipeline S cmds) k = none := by
  induction cmds generalizing S with
  | nil => exact hn
  | cons c rest ih =>
      have h1 := h c (List.mem_cons_self c rest)
      have h2 : ∀ c2 ∈ rest, cmdWritesKey c2 k = false :=
        fun c2 hc2 => h c2 (List.mem_cons_of_mem c hc2)
      simp only [applyPipeline, List.foldl_cons]
      exact ih (applyCmd S c) (slookup_applyCmd_none S c k hn h1) h2

/-- Deleting every key of a list deletes any member of the list. -/
theorem dels_member_none (ms : List String) (S : Store) (k : String) (hm : k ∈ ms) :
    slookup (applyPipeline S (ms.map Cmd.del)) k = none := by
  induction ms generalizing S with
  | nil => cases hm
  | cons m rest ih =>
      simp only [List.map_cons, applyPipeline, List.foldl_cons]
      by_cases hk : k = m
      · subst hk
        apply slookup_applyPipeline_none
        · simp [applyCmd, slookup_sdel]
        · intro c hc
          obtain ⟨m2, _, rfl⟩ := List.mem_map.mp hc
          simp [cmdWritesKey]
      · have hm2 : k ∈ rest := by
          cases hm with
          | head => exact absurd rfl hk
          | tail _ h => exact h
        exact ih (applyCmd S (Cmd.del m)) hm2

/-- `get` on a key whose record is absent from the store is a miss. -/
theorem get_of_slookup_none (S : Store) (now : Nat) (cacheKey : String)
    (softTags : List String) (h : slookup S (CACHE_NS ++ cacheKey) = none) :
    get S now cacheKey softTags = none := by
  simp [get, getPublic, getBody, rget, h]

/-- Full characterization of `get` on a key whose record is present and
well-formed: hit exactly when the soft-revalidate window has not passed. -/
theorem get_of_slookup_record (S : Store) (now : Nat) (cacheKey : String)
    (softTags : List String) (r : StoredRecord)
    (h : slookup S (CACHE_NS ++ cacheKey) = some (RVal.record r)) :
    get S now cacheKey softTags =
      if now > r.timestamp + r.revalidate * 1000 then none
      else some
        { value := b64DecodeChars r.value.data
          tags := r.tags
          stale := r.stale
          timestamp := r.timestamp
          expire := r.expire
          revalidate := r.revalidate } := by
  by_cases hnow : now > r.timestamp + r.revalidate * 1000 <;>
    simp [get, getPublic, getBody, rget, h, parseStored, hnow]

/-- `get` on a key holding a malformed payload is a miss. -/
theorem get_of_slookup_str (S : Store) (now : Nat) (cacheKey : String)
    (softTags : List String) (str : String)
    (h : slookup S (CACHE_NS ++ cacheKey) = some (RVal.str str)) :
    get S now cacheKey softTags = none := by
  simp [get, getPublic, getBody, rget, h, parseStored]

/-- C1 (counterexample): a stored record that is present and within its
physical TTL (`now` is not past `timestamp + expire * 1000`) is
nevertheless a miss, because `get` checks `revalidate`, not `expire`.
This falsifies the claim that a miss occurs only on absence or physical
expiry. -/
theorem get_miss_within_physical_ttl :
    slookup [(CACHE_NS ++ "k", RVal.record
        { value := "", tags := [], stale := false, timestamp := 0,
          expire := 100, revalidate := 10 })] (CACHE_NS ++ "k")
      = some (RVal.record
        { value := "", tags := [], stale := false, timestamp := 0,
          expire := 100, revalidate := 10 }) ∧
    ¬ (20000 > 0 + 100 * 1000) ∧
    get [(CACHE_NS ++ "k", RVal.record
        { value := "", tags := [], stale := false, timestamp := 0,
          expire := 100, revalidate := 10 })] 20000 "k" [] = none := by
  refine ⟨rfl, by decide, by decide⟩

/-- C1 (amended): for a present, well-formed record, `get(key, tags)` is a
miss exactly when `now > timestamp + revalidate * 1000`; the `expire`
field is not consulted at read time, so an entry past its soft-revalidate
window is turned into a miss rather than returned as stale. -/
theorem get_miss_iff_past_revalidate (S : Store) (now : Nat)
    (cacheKey : String) (softTags : List String) (r : StoredRecord)
    (h : slookup S (CACHE_NS ++ cacheKey) = some (RVal.record r)) :
    get S now cacheKey softTags = none ↔
      now > r.timestamp + r.revalidate * 1000 := by
  rw [get_of_slookup_record S now cacheKey softTags r h]
  by_cases hnow : now > r.timestamp + r.revalidate * 1000 <;> simp [hnow]

theorem get_miss_iff_past_revalidate_witness :
    get [(CACHE_NS ++ "k", RVal.record
      { value := "", tags := [], stale := false, timestamp := 0,
        expire := 100, revalidate := 10 })] 20000 "k" [] = none :=
  (get_miss_iff_past_revalidate
    [(CACHE_NS ++ "k", RVal.record
      { value := "", tags := [], stale := false, timestamp := 0,
        expire := 100, revalidate := 10 })] 20000 "k" []
    { value := "", tags := [], stale := false, timestamp := 0,
      expire := 100, revalidate := 10 } rfl).mpr (by decide)

/-- C3: no public operation propagates an internal failure. `get` returns
a miss on a store I/O error and on a malformed stored payload; `set`
returns normally (store untouched, promise resolved) when the entry
producer rejects or the pipeline exec throws; `updateTags` leaves the
store untouched when its pipeline exec throws; `refreshTags` leaves the
map untouched when its scan throws. -/
theorem public_ops_swallow_failures :
    (∀ now : Nat, getPublic (Except.error ()) now = none) ∧
    (∀ (S : Store) (now : Nat) (cacheKey str2 : String) (softTags : List String),
      slookup S (CACHE_NS ++ cacheKey) = some (RVal.str str2) →
      get S now cacheKey softTags = none) ∧
    (∀ (S : Store) (ps : PendingMap) (cacheKey : String) (execFails : Bool),
      (setRun S ps cacheKey (Except.error ()) execFails).store = S ∧
      (setRun S ps cacheKey (Except.error ()) execFails).promiseResolved = true) ∧
    (∀ (S : Store) (ps : PendingMap) (cacheKey : String) (e : EntryIn),
      (setRun S ps cacheKey (Except.ok e) true).store = S ∧
      (setRun S ps cacheKey (Except.ok e) true).promiseResolved = true) ∧
    (∀ (S : Store) (tm : TagMap) (now : Nat) (tags : List String) (failAt : Option Nat),
      (updateTags S tm now tags failAt true).1 = S) ∧
    (∀ (S : Store) (tm : TagMap), refreshTags S tm true = tm) := by
  refine ⟨fun now => rfl, ?_, fun S ps k ef => ⟨rfl, rfl⟩,
    fun S ps k e => ⟨rfl, rfl⟩, ?_, fun S tm => rfl⟩
  · exact fun S now k str2 tags h => get_of_slookup_str S now k tags str2 h
  · intro S tm now tags failAt
    unfold updateTags
    rcases hgo : updateTagsGo S now tags failAt [] tm with ⟨res, tm2⟩
    cases res <;> simp [hgo]

theorem public_ops_swallow_failures_witness :
    slookup [(CACHE_NS ++ "k", RVal.str "not json")] (CACHE_NS ++ "k")
      = some (RVal.str "not json") ∧
    get [(CACHE_NS ++ "k", RVal.str "not json")] 5 "k" [] = none :=
  ⟨rfl, public_ops_swallow_failures.2.1
    [(CACHE_NS ++ "k", RVal.str "not json")] 5 "k" "not json" [] rfl⟩

/-- C5: the pipeline built by `set` consists of exactly one `SETEX` of the
serialized entry at the prefixed key with TTL `expire`, and, per tag, one
`SADD` of the prefixed entry key into the tag set and one `EXPIRE` of the
tag set to `expire + 60`; nothing else. -/
theorem set_pipeline_contents (cacheKey : String) (e : EntryIn) :
    (buildSetPipeline cacheKey e).countP (fun c => isSetexCmd c) = 1 ∧
    Cmd.setex (CACHE_NS ++ cacheKey) e.expire (RVal.record (serializeRecord e))
      ∈ buildSetPipeline cacheKey e ∧
    (∀ c, c ∈ buildSetPipeline cacheKey e ↔
      (c = Cmd.setex (CACHE_NS ++ cacheKey) e.expire
            (RVal.record (serializeRecord e)) ∨
       ∃ t ∈ e.tags,
         c = Cmd.sadd (TAGS_NS ++ t) (CACHE_NS ++ cacheKey) ∨
         c = Cmd.expire (TAGS_NS ++ t) (e.expire + 60))) := by
  refine ⟨?_, ?_, ?_⟩
  · rw [buildSetPipeline, List.countP_cons]
    have hz : (e.tags.flatMap (fun tag =>
        [Cmd.sadd (TAGS_NS ++ tag) (CACHE_NS ++ cacheKey),
         Cmd.expire (TAGS_NS ++ tag) (e.expire + 60)])).countP
        (fun c => isSetexCmd c) = 0 := by
      rw [List.countP_eq_zero]
      intro c hc
      obtain ⟨t, ht, hc2⟩ := List.mem_flatMap.mp hc
      simp only [List.mem_cons, List.mem_singleton, List.not_mem_nil,
        or_false] at hc2
      rcases hc2 with h | h <;> subst h <;> simp [isSetexCmd]
    rw [hz]
    simp [isSetexCmd]
  · exact List.mem_cons_self _ _
  · intro c
    simp [buildSetPipeline, List.mem_flatMap]

/-- C6: every `set` call, on success and on every failure path, ends with
the coalescer slot for its key removed and the promise it registered
resolved. -/
theorem set_releases_coalescer (S : Store) (ps : PendingMap) (cacheKey : String)
    (entryResult : Except Unit EntryIn) (execFails : Bool) :
    (setRun S ps cacheKey entryResult execFails).pending cacheKey = false ∧
    (setRun S ps cacheKey entryResult execFails).promiseResolved = true := by
  constructor
  · simp [setRun, psSet]
  · rfl

theorem runEnsures_stays_connected (rest : List Bool) (n : Nat) :
    rest.foldl
      (fun st f =>
        let r := ensureConnected st.1 f
        (r.1, st.2 + (if r.2 then 1 else 0)))
      (true, n) = (true, n) := by
  induction rest with
  | nil => rfl
  | cons g tail ih => cases g <;> simpa [ensureConnected] using ih

/-- C10: after the first `ensureConnected` call the flag is true even if
the connect attempt failed, so across any process lifetime exactly one
connection attempt is made on the first call and none afterwards (no
retry of a failed connect). -/
theorem ensureConnected_connects_at_most_once (fails : List Bool)
    (f : Bool) (rest : List Bool) :
    (runEnsures fails).2 ≤ 1 ∧
    (runEnsures (f :: rest)).1 = true ∧
    (runEnsures (f :: rest)).2 = 1 := by
  have hcons : ∀ (g : Bool) (tail : List Bool), runEnsures (g :: tail) = (true, 1) := by
    intro g tail
    have h0 : runEnsures (g :: tail) = tail.foldl
        (fun st f2 =>
          let r := ensureConnected st.1 f2
          (r.1, st.2 + (if r.2 then 1 else 0)))
        (true, 1) := by
      cases g <;> rfl
    rw [h0, runEnsures_stays_connected]
  refine ⟨?_, ?_, ?_⟩
  · cases fails with
    | nil => decide
    | cons g tail => rw [hcons g tail]
  · rw [hcons f rest]
  · rw [hcons f rest]

/-- C2: after a successful `updateTags([t])`, `get` misses on every key
whose prefixed record key was a member of `t`'s member set at
invalidation time: all member record keys are deleted by the pipeline,
and the tag's member-set record is deleted too. -/
theorem tag_invalidation_completeness (S : Store) (tm : TagMap)
    (now now2 : Nat) (t cacheKey : String) (softTags : List String)
    (ms : List String)
    (hms : smembers S (TAGS_NS ++ t) = Except.ok ms)
    (hmem : (CACHE_NS ++ cacheKey) ∈ ms) :
    get (updateTags S tm now [t] none false).1 now2 cacheKey softTags = none := by
  have hgo : updateTagsGo S now [t] none [] tm =
      (Except.ok (ms.map Cmd.del ++
        [Cmd.del (TAGS_NS ++ t),
         Cmd.setStr (TAGS_NS ++ t ++ ":timestamp") (toString now)]),
       tmSet tm t now) := by
    simp [updateTagsGo, hms]
  have hstore : (updateTags S tm now [t] none false).1 =
      applyPipeline S (ms.map Cmd.del ++
        [Cmd.del (TAGS_NS ++ t),
         Cmd.setStr (TAGS_NS ++ t ++ ":timestamp") (toString now)]) := by
    simp [updateTags, hgo]
  rw [hstore]
  apply get_of_slookup_none
  rw [applyPipeline, List.foldl_append]
  apply slookup_applyPipeline_none
  · exact dels_member_none ms S (CACHE_NS ++ cacheKey) hmem
  · intro c hc
    simp only [List.mem_cons, List.mem_singleton, List.not_mem_nil,
      or_false] at hc
    rcases hc with h | h <;> subst h
    · rfl
    · simp only [cmdWritesKey, decide_eq_false_iff_not]
      intro he
      exact ns_disjoint cacheKey (t ++ ":timestamp")
        (by rw [← String.append_assoc]; exact he.symm)

theorem tag_invalidation_completeness_witness :
    smembers [(TAGS_NS ++ "wines", RVal.sset [CACHE_NS ++ "w1"]),
              (CACHE_NS ++ "w1", RVal.record
                { value := "", tags := ["wines"], stale := false,
                  timestamp := 0, expire := 100, revalidate := 100 })]
        (TAGS_NS ++ "wines") = Except.ok [CACHE_NS ++ "w1"] ∧
    get (updateTags
          [(TAGS_NS ++ "wines", RVal.sset [CACHE_NS ++ "w1"]),
           (CACHE_NS ++ "w1", RVal.record
             { value := "", tags := ["wines"], stale := false,
               timestamp := 0, expire := 100, revalidate := 100 })]
          [] 7 ["wines"] none false).1 1 "w1" ["wines"] = none :=
  ⟨rfl, tag_invalidation_completeness
    [(TAGS_NS ++ "wines", RVal.sset [CACHE_NS ++ "w1"]),
     (CACHE_NS ++ "w1", RVal.record
       { value := "", tags := ["wines"], stale := false,
         timestamp := 0, expire := 100, revalidate := 100 })]
    [] 7 1 "wines" "w1" ["wines"] [CACHE_NS ++ "w1"] rfl
    (by decide)⟩

/-- C4 (counterexample): an `updateTags(["a"])` whose pipeline exec fails
leaves the store untouched but changes the in-process tag-timestamp map:
`getExpiration(["a"])` goes from 0 to the invalidation timestamp, so the
failed call is not a no-op on the map read by `getExpiration`. -/
theorem updateTags_failure_changes_tag_map :
    (updateTags [] [] 5 ["a"] none true).1 = ([] : Store) ∧
    getExpiration (updateTags [] [] 5 ["a"] none true).2 ["a"] = 5 ∧
    getExpiration ([] : TagMap) ["a"] = 0 := by
  refine ⟨rfl, by decide, by decide⟩

theorem updateTagsGo_all_ok (S : Store) (now : Nat) :
    ∀ (tags : List String) (acc : List Cmd) (tm : TagMap),
    (∀ t2 ∈ tags, ∃ ms, smembers S (TAGS_NS ++ t2) = Except.ok ms) →
    ∃ cmds, updateTagsGo S now tags none acc tm =
      (Except.ok cmds, tags.foldl (fun m t2 => tmSet m t2 now) tm)
  | [], acc, tm, _ => ⟨acc, rfl⟩
  | tag :: rest, acc, tm, hok => by
      obtain ⟨ms, hms⟩ := hok tag (List.mem_cons_self tag rest)
      have hrest : ∀ t2 ∈ rest, ∃ ms2, smembers S (TAGS_NS ++ t2) = Except.ok ms2 :=
        fun t2 ht2 => hok t2 (List.mem_cons_of_mem tag ht2)
      obtain ⟨cmds, hrec⟩ := updateTagsGo_all_ok S now rest
        (acc ++ ms.map Cmd.del ++
          [Cmd.del (TAGS_NS ++ tag),
           Cmd.setStr (TAGS_NS ++ tag ++ ":timestamp") (toString now)])
        (tmSet tm tag now) hrest
      refine ⟨cmds, ?_⟩
      simp only [updateTagsGo, hms]
      simpa [List.append_assoc] using hrec

/-- C4 (amended): when `updateTags(tags)` fails internally at the pipeline
exec, the store is left unchanged, but the in-process tag-timestamp map
is not: every tag the loop processed (all of them, in this case) has
already been stamped with the invalidation time; the call merely returns
normally. -/
theorem updateTags_exec_failure_state (S : Store) (tm : TagMap) (now : Nat)
    (tags : List String)
    (hok : ∀ t2 ∈ tags, ∃ ms, smembers S (TAGS_NS ++ t2) = Except.ok ms) :
    updateTags S tm now tags none true =
      (S, tags.foldl (fun m t2 => tmSet m t2 now) tm) := by
  obtain ⟨cmds, hgo⟩ := updateTagsGo_all_ok S now tags [] tm hok
  simp [updateTags, hgo]

theorem updateTags_exec_failure_state_witness :
    updateTags [] [] 5 ["a", "b"] none true =
      (([] : Store), [("b", 5), ("a", 5)]) :=
  (updateTags_exec_failure_state [] [] 5 ["a", "b"]
    (by intro t2 ht2; exact ⟨[], by fin_cases ht2 <;> rfl⟩)).trans (by decide)

theorem tmGet_le_of_bounded (tm : TagMap) (c : Nat) (t : String)
    (hb : tmBounded tm c = true) : (tmGet tm t).getD 0 ≤ c := by
  induction tm with
  | nil => simp [tmGet]
  | cons p rest ih =>
      obtain ⟨pk, pv⟩ := p
      simp only [tmBounded, List.all_cons, Bool.and_eq_true,
        decide_eq_true_eq] at hb
      by_cases h : t = pk
      · simp [tmGet, h, hb.1]
      · simp only [tmGet, if_neg h]
        exact ih (by simp [tmBounded, hb.2])

theorem tmBounded_mono (tm : TagMap) (c c2 : Nat)
    (hb : tmBounded tm c = true) (hc : c ≤ c2) : tmBounded tm c2 = true := by
  simp only [tmBounded, List.all_eq_true, decide_eq_true_eq] at hb ⊢
  exact fun p hp => le_trans (hb p hp) hc

theorem updateTagsGo_tm (S : Store) (now : Nat) :
    ∀ (tags : List String) (failAt : Option Nat) (acc : List Cmd) (tm : TagMap),
    tmBounded tm now = true →
    tmBounded (updateTagsGo S now tags failAt acc tm).2 now = true ∧
    ∀ t, (tmGet tm t).getD 0 ≤
      (tmGet (updateTagsGo S now tags failAt acc tm).2 t).getD 0
  | [], _, _, _, hb => ⟨hb, fun _ => le_refl _⟩
  | tag :: rest, failAt, acc, tm, hb => by
      by_cases hf : failAt = some 0
      · constructor
        · simpa [updateTagsGo, hf] using hb
        · intro t; simp [updateTagsGo, hf]
      · cases hsm : smembers S (TAGS_NS ++ tag) with
        | error e =>
            constructor
            · simpa [updateTagsGo, hf, hsm] using hb
            · intro t; simp [updateTagsGo, hf, hsm]
        | ok ms =>
            have hb2 : tmBounded (tmSet tm tag now) now = true := by
              simp only [tmBounded, tmSet, List.all_cons, Bool.and_eq_true,
                decide_eq_true_eq]
              exact ⟨le_refl now, by
                simpa only [tmBounded, List.all_eq_true] using hb⟩
            obtain ⟨ih1, ih2⟩ := updateTagsGo_tm S now rest
              (failAt.map fun n => n - 1)
              (acc ++ ms.map Cmd.del ++
                [Cmd.del (TAGS_NS ++ tag),
                 Cmd.setStr (TAGS_NS ++ tag ++ ":timestamp") (toString now)])
              (tmSet tm tag now) hb2
            constructor
            · simpa [updateTagsGo, hf, hsm] using ih1
            · intro t
              have step : (tmGet tm t).getD 0 ≤ (tmGet (tmSet tm tag now) t).getD 0 := by
                by_cases ht : t = tag
                · simp only [tmSet, tmGet, if_pos ht, Option.getD_some]
                  exact tmGet_le_of_bounded tm now t hb
                · simp [tmSet, tmGet, ht]
              have goal2 := step.trans (ih2 t)
              simpa [updateTagsGo, hf, hsm] using goal2

theorem updateTags_snd (S : Store) (tm : TagMap) (now : Nat)
    (tags : List String) (failAt : Option Nat) (e : Bool) :
    (updateTags S tm now tags failAt e).2 =
      (updateTagsGo S now tags failAt [] tm).2 := by
  unfold updateTags
  rcases hgo : updateTagsGo S now tags failAt [] tm with ⟨res, tm2⟩
  cases res <;> cases e <;> simp [hgo]

theorem runUpdateCalls_tm :
    ∀ (calls : List UpdateCall) (S : Store) (tm : TagMap) (c : Nat),
    tmBounded tm c = true → clocksMono c calls = true →
    ∀ t, (tmGet tm t).getD 0 ≤
      (tmGet (runUpdateCalls calls (S, tm)).2 t).getD 0
  | [], _, _, _, _, _, _ => le_refl _
  | u :: rest, S, tm, c, hb, hm, t => by
      simp only [clocksMono, Bool.and_eq_true, decide_eq_true_eq] at hm
      obtain ⟨hc, hm2⟩ := hm
      have hbnow : tmBounded tm u.now = true := tmBounded_mono tm c u.now hb hc
      obtain ⟨hb2, hle⟩ := updateTagsGo_tm S u.now u.tags u.failAt [] tm hbnow
      have hsnd := updateTags_snd S tm u.now u.tags u.failAt u.execFails
      have step : (tmGet tm t).getD 0 ≤
          (tmGet (updateTags S tm u.now u.tags u.failAt u.execFails).2 t).getD 0 := by
        rw [hsnd]; exact hle t
      have hb3 : tmBounded (updateTags S tm u.now u.tags u.failAt u.execFails).2 u.now = true := by
        rw [hsnd]; exact hb2
      have ihre := runUpdateCalls_tm rest
        (updateTags S tm u.now u.tags u.failAt u.execFails).1
        (updateTags S tm u.now u.tags u.failAt u.execFails).2
        u.now hb3 hm2 t
      refine step.trans ?_
      simpa [runUpdateCalls] using ihre

theorem getExpiration_single (tm : TagMap) (t : String) :
    getExpiration tm [t] = (tmGet tm t).getD 0 := by
  simp only [getExpiration, List.length_cons, List.length_nil,
    List.foldl_cons, List.foldl_nil]
  by_cases h : (tmGet tm t).getD 0 > 0
  · simp [h]
  · simp [h]; omega

/-- C7 (counterexample): a successful invalidation at time 50, then an
invalidation at time 200 whose pipeline exec fails (so the store still
holds the timestamp 50), then a `refreshTags`: `getExpiration(["t"])`
drops from 200 to 50, so it is not non-decreasing once `refreshTags`
repopulation is included. -/
theorem refreshTags_lowers_expiration :
    getExpiration
      (runUpdateCalls [⟨50, ["t"], none, false⟩, ⟨200, ["t"], none, true⟩]
        ([], [])).2 ["t"] = 200 ∧
    getExpiration
      (refreshTags
        (runUpdateCalls [⟨50, ["t"], none, false⟩, ⟨200, ["t"], none, true⟩]
          ([], [])).1
        (runUpdateCalls [⟨50, ["t"], none, false⟩, ⟨200, ["t"], none, true⟩]
          ([], [])).2
        false) ["t"] = 50 := by
  refine ⟨by decide, by decide⟩

/-- C7 (amended): for a fixed tag, `getExpiration([t])` is non-decreasing
across any sequence of `updateTags` invocations whose `Date.now()`
readings are non-decreasing and start at or after every timestamp already
in the map — including invocations that fail. `refreshTags` is excluded:
it overwrites the map from the store unconditionally and can lower the
value when the store's persisted timestamp is older (see the
counterexample). -/
theorem getExpiration_monotone_across_updates (calls : List UpdateCall)
    (S : Store) (tm : TagMap) (c : Nat) (t : String)
    (hb : tmBounded tm c = true) (hm : clocksMono c calls = true) :
    getExpiration tm [t] ≤ getExpiration (runUpdateCalls calls (S, tm)).2 [t] := by
  rw [getExpiration_single, getExpiration_single]
  exact runUpdateCalls_tm calls S tm c hb hm t

theorem getExpiration_monotone_across_updates_witness :
    tmBounded ([] : TagMap) 0 = true ∧
    clocksMono 0 [⟨50, ["t"], none, false⟩, ⟨200, ["t"], none, true⟩] = true ∧
    getExpiration ([] : TagMap) ["t"] ≤
      getExpiration (runUpdateCalls
        [⟨50, ["t"], none, false⟩, ⟨200, ["t"], none, true⟩] ([], [])).2 ["t"] :=
  ⟨rfl, by decide,
    getExpiration_monotone_across_updates
      [⟨50, ["t"], none, false⟩, ⟨200, ["t"], none, true⟩] [] [] 0 "t" rfl
      (by decide)⟩

/-- C8: writing an entry (chunk concatenation, base64 encoding, record
serialization) and reading it back (record parse, base64 decode) through
the store returns exactly the original payload bytes, for arbitrary
binary content. -/
theorem entry_codec_round_trip (S : Store) (cacheKey : String) (e : EntryIn)
    (now : Nat) (softTags : List String)
    (hbytes : ∀ b ∈ e.chunks.flatten, b < 256)
    (hfresh : ¬ now > e.timestamp + e.revalidate * 1000) :
    get (applyPipeline S (buildSetPipeline cacheKey e)) now cacheKey softTags =
      some { value := e.chunks.flatten, tags := e.tags, stale := e.stale,
             timestamp := e.timestamp, expire := e.expire,
             revalidate := e.revalidate } := by
  have huntouched : ∀ c ∈ (e.tags.flatMap fun tag =>
      [Cmd.sadd (TAGS_NS ++ tag) (CACHE_NS ++ cacheKey),
       Cmd.expire (TAGS_NS ++ tag) (e.expire + 60)]),
      cmdTouchesKey c (CACHE_NS ++ cacheKey) = false := by
    intro c hc
    obtain ⟨t, ht, hc2⟩ := List.mem_flatMap.mp hc
    simp only [List.mem_cons, List.mem_singleton, List.not_mem_nil,
      or_false] at hc2
    rcases hc2 with h | h <;> subst h
    · simp only [cmdTouchesKey, decide_eq_false_iff_not]
      exact fun he => ns_disjoint cacheKey t he.symm
    · rfl
  have hlook : slookup (applyPipeline S (buildSetPipeline cacheKey e))
      (CACHE_NS ++ cacheKey) = some (RVal.record (serializeRecord e)) := by
    have h0 : applyPipeline S (buildSetPipeline cacheKey e) =
        applyPipeline
          (applyCmd S (Cmd.setex (CACHE_NS ++ cacheKey) e.expire
            (RVal.record (serializeRecord e))))
          (e.tags.flatMap fun tag =>
            [Cmd.sadd (TAGS_NS ++ tag) (CACHE_NS ++ cacheKey),
             Cmd.expire (TAGS_NS ++ tag) (e.expire + 60)]) := rfl
    rw [h0, slookup_applyPipeline_untouched _ _ _ huntouched]
    simp [applyCmd, slookup_supdate]
  rw [get_of_slookup_record _ now cacheKey softTags _ hlook]
  simp only [serializeRecord]
  rw [if_neg hfresh]
  simp [b64_decode_encode e.chunks.flatten hbytes]

theorem entry_codec_round_trip_witness :
    (∀ b ∈ ([[0], [255, 7]] : List (List Nat)).flatten, b < 256) ∧
    get (applyPipeline [] (buildSetPipeline "w1"
      { chunks := [[0], [255, 7]], tags := ["wines"], stale := false,
        timestamp := 3, expire := 100, revalidate := 50 })) 3 "w1" [] =
      some { value := [0, 255, 7], tags := ["wines"], stale := false,
             timestamp := 3, expire := 100, revalidate := 50 } :=
  ⟨by decide,
    (entry_codec_round_trip [] "w1"
      { chunks := [[0], [255, 7]], tags := ["wines"], stale := false,
        timestamp := 3, expire := 100, revalidate := 50 } 3 []
      (by decide) (by decide)).trans (by decide)⟩

theorem cinv_of_reach (S0 : Store) (cmds : List Cmd) (writeOk : Bool)
    (s : CState) (h : CReach S0 cmds writeOk s) : CInv S0 cmds writeOk s := by
  induction h with
  | init =>
      refine ⟨Or.inl rfl, fun _ => rfl, fun hc => ?_, by simp [initCState],
        by simp [initCState], fun h2 => ?_⟩
      · rcases hc with hc | hc <;> simp [initCState] at hc
      · simp [initCState] at h2
  | step hr hstep ih =>
      obtain ⟨h1, h2, h3, h4, h5, h6⟩ := ih
      cases hstep with
      | wStart hw =>
          refine ⟨Or.inr (Or.inl rfl), fun _ => h2 (Or.inl hw), fun hc => ?_,
            by simp, ?_, h6⟩
          · rcases hc with hc | hc <;> simp at hc
          · constructor
            · intro hfalse; simp at hfalse
            · intro hc; simp at hc
      | wExec hw =>
          have hs0 : _ = S0 := h2 (Or.inr hw)
          refine ⟨Or.inr (Or.inr (Or.inl rfl)), fun hc => ?_, fun _ => ?_,
            ?_, ?_, h6⟩
          · rcases hc with hc | hc <;> simp at hc
          · show (if writeOk then applyPipeline _ cmds else _) =
              writeResult S0 cmds writeOk
            rw [hs0]; rfl
          · constructor
            · intro _; exact Or.inr rfl
            · intro _; exact h4.mpr (Or.inl hw)
          · constructor
            · intro hres
              exact absurd (hw.symm.trans (h5.mp hres)) (by decide)
            · intro hc; simp at hc
      | wCleanup hw =>
          refine ⟨Or.inr (Or.inr (Or.inr rfl)), fun hc => ?_,
            fun _ => h3 (Or.inl hw), by simp, by simp, h6⟩
          rcases hc with hc | hc <;> simp at hc
      | rCheck hrp =>
          exact ⟨h1, h2, h3, h4, h5, fun h2x => by simp at h2x⟩
      | rFetch hrp hw =>
          refine ⟨h1, h2, h3, h4, h5, fun _ hwaits => ?_⟩
          have hres := hw hwaits
          have hwp3 := h5.mp hres
          have hst := h3 (Or.inr hwp3)
          show some _ = some (writeResult S0 cmds writeOk)
          rw [hst]

/-- C9: in every interleaving of a `get` and an in-flight `set` on the
same key, the store only ever holds the pre-write or the complete
post-write contents (the pipelined batch applies atomically, so an entry
record is never visible without its tag-membership commands), and a
reader that found the pending-write promise at its coalescer check
fetches the store only after the write has fully settled, observing
exactly the post-write contents. -/
theorem coalesced_read_sees_complete_write (S0 : Store) (cmds : List Cmd)
    (writeOk : Bool) (s : CState) (h : CReach S0 cmds writeOk s) :
    (s.store = S0 ∨ s.store = writeResult S0 cmds writeOk) ∧
    (s.rp = 2 → s.rWaits = true →
      s.rObs = some (writeResult S0 cmds writeOk)) := by
  obtain ⟨h1, h2, h3, h4, h5, h6⟩ := cinv_of_reach S0 cmds writeOk s h
  constructor
  · rcases h1 with hw | hw | hw | hw
    · exact Or.inl (h2 (Or.inl hw))
    · exact Or.inl (h2 (Or.inr hw))
    · exact Or.inr (h3 (Or.inl hw))
    · exact Or.inr (h3 (Or.inr hw))
  · exact h6

theorem coalesced_read_sees_complete_write_witness :
    ({ store := [], pending := false, resolved := true, wp := 3, rp := 2,
       rWaits := true, rObs := some [] } : CState).rObs =
      some (writeResult [] [] true) := by
  have hreach : CReach [] [] true
      { store := [], pending := false, resolved := true, wp := 3, rp := 2,
        rWaits := true, rObs := some [] } := by
    have d1 : CReach [] [] true
        { store := [], pending := true, resolved := false, wp := 1, rp := 0,
          rWaits := false, rObs := none } :=
      CReach.step CReach.init (CStep.wStart _ rfl)
    have d2 : CReach [] [] true
        { store := [], pending := true, resolved := false, wp := 1, rp := 1,
          rWaits := true, rObs := none } :=
      CReach.step d1 (CStep.rCheck _ rfl)
    have d3 : CReach [] [] true
        { store := [], pending := true, resolved := false, wp := 2, rp := 1,
          rWaits := true, rObs := none } :=
      CReach.step d2 (CStep.wExec _ rfl)
    have d4 : CReach [] [] true
        { store := [], pending := false, resolved := true, wp := 3, rp := 1,
          rWaits := true, rObs := none } :=
      CReach.step d3 (CStep.wCleanup _ rfl)
    exact CReach.step d4 (CStep.rFetch _ rfl (fun _ => rfl))
  exact (coalesced_read_sees_complete_write [] [] true _ hreach).2 rfl rfl

end CacheHandler
